import Mathlib

/-!
Verification of the wasm-split lazy-loading primitive
(`packages/wasm-split/wasm-split/src/lib.rs`).

The code is single-threaded and event-driven, so it is embedded as an
explicit state machine.  A `LoaderSys` records the contents of the two
`Cell`s inside `SplitLoader` (`state` and `waker`), the memoized value held
by the surrounding `async_once_cell::Lazy` cell (`cache`, what `try_get`
reads), how many times the external load routine has been invoked
(`loadCalls`), whether the raw `Rc` token produced by
`Rc::into_raw` is currently held by the external loader (`tokenOut`), and
the list of wakers that have been woken (`woken`).

Execution steps are the two entry points that mutate this state: a poll of
the shared `Lazy` cell by some task (`pollLazy`, covering
`SplitLoaderFuture::poll` plus the memoizing behaviour of the cell), and
the completion callback `load_callback` fired by the external loader.  The
facade operation `LazyLoader::call` only reads `try_get`, so it is a pure
function of the state.
-/

namespace WasmSplit

/-- `SplitLoaderError` from the source: the single public error kind. -/
inductive SplitLoaderError where
  | FailedToLoad
deriving DecidableEq

/-- `SplitLoaderState` from the source.  The external load routine held by
the `Deferred` variant is abstracted as a numeric identity: the code never
inspects it, it only hands it the callback and the token. -/
inductive SplitLoaderState where
  | Deferred (load : Nat)
  | Pending
  | Completed (success : Bool)
deriving DecidableEq

/-- The result of one poll, mirroring `std::task::Poll`. -/
inductive PollRes (α : Type) where
  | ready (value : α)
  | pending
deriving DecidableEq

/-- The state of one split-module loader slot together with its memoizing
cell and the observable interactions with the external loader. -/
structure LoaderSys where
  state : SplitLoaderState
  waker : Option Nat
  cache : Option Bool
  loadCalls : Nat
  tokenOut : Bool
  woken : List Nat
deriving DecidableEq

/-- `LazySplitLoader::new(load)`: the slot starts in `Deferred(load)` with
an empty waker cell; the `Lazy` cell has no memoized value yet, the load
routine has never been invoked and no raw token has been handed out. -/
def LazySplitLoader.new (load : Nat) : LoaderSys :=
  { state := .Deferred load
    waker := none
    cache := none
    loadCalls := 0
    tokenOut := false
    woken := [] }

/-- `LazySplitLoader::preloaded()`: the slot starts in `Completed(true)`;
everything else as in `new`. -/
def LazySplitLoader.preloaded : LoaderSys :=
  { state := .Completed true
    waker := none
    cache := none
    loadCalls := 0
    tokenOut := false
    woken := [] }

/-- One poll of the shared memoizing `Lazy` cell by task `w`.  If the cell
already memoized a value, that value is returned and nothing changes
(the fast path of `async_once_cell::Lazy`).  Otherwise the inner
`SplitLoaderFuture::poll` runs, exactly as in the source:

* `Deferred(load)`: set state to `Pending`, store the waker, invoke the
  external load routine (counted in `loadCalls`) handing it the raw `Rc`
  token (`tokenOut := true`), and return `Pending`;
* `Pending`: overwrite the stored waker, return `Pending`;
* `Completed(v)`: return `Ready(v)`; the surrounding `Lazy` cell then
  memoizes `v`, making it visible to `try_get`. -/
def pollLazy (w : Nat) (s : LoaderSys) : LoaderSys × PollRes Bool :=
  match s.cache with
  | some b => (s, .ready b)
  | none =>
    match s.state with
    | .Deferred _ =>
        ({ s with
            state := .Pending
            waker := some w
            loadCalls := s.loadCalls + 1
            tokenOut := true },
         .pending)
    | .Pending => ({ s with waker := some w }, .pending)
    | .Completed v => ({ s with cache := some v }, .ready v)

/-- The completion callback `load_callback(loader, success)` from the
source: it reconstructs the owned `Rc` from the raw token (consuming it,
so `tokenOut := false`), sets the state to `Completed(success)`, and takes
the waker out of its cell, waking it when one was stored. -/
def load_callback (success : Bool) (s : LoaderSys) : LoaderSys :=
  { s with
      state := .Completed success
      tokenOut := false
      waker := none
      woken :=
        match s.waker with
        | some w => s.woken ++ [w]
        | none => s.woken }

/-- `Lazy::try_get` on the shared cell: the memoized value, if any. -/
def try_get (s : LoaderSys) : Option Bool := s.cache

/-- `LazyLoader::call(args)`, instrumented with a flag recording whether
the bound function pointer was invoked.  As in the source, it reads
`try_get` on the shared cell; only on `Some(true)` does it invoke the
imported function.  `call` takes `&self` and mutates nothing, so it is a
pure function of the state. -/
def callInstr {Args Ret : Type} (imported : Args → Ret) (s : LoaderSys)
    (args : Args) : Except SplitLoaderError Ret × Bool :=
  match try_get s with
  | some true => (.ok (imported args), true)
  | _ => (.error .FailedToLoad, false)

/-- `LazyLoader::call(args)`: just the returned result. -/
def call {Args Ret : Type} (imported : Args → Ret) (s : LoaderSys)
    (args : Args) : Except SplitLoaderError Ret :=
  (callInstr imported s args).1

/-- The two events that mutate a loader slot: a poll of the shared cell by
some task, and the external completion callback. -/
inductive Event where
  | poll (task : Nat)
  | callback (success : Bool)
deriving DecidableEq

/-- Apply one event to the state. -/
def stepEv (e : Event) (s : LoaderSys) : LoaderSys :=
  match e with
  | .poll w => (pollLazy w s).1
  | .callback b => load_callback b s

/-- Whether an event can fire: polls are always possible; the completion
callback can only fire while the external loader holds the raw token it
was handed (the external contract: invoked exactly once, with the token
produced by the load call). -/
def enabled (e : Event) (s : LoaderSys) : Bool :=
  match e with
  | .poll _ => true
  | .callback _ => s.tokenOut

/-- States reachable from `init` by any finite interleaving of enabled
events (polls by arbitrary tasks, in any order, model both sequential and
concurrent use on the single-threaded executor). -/
inductive Reachable (init : LoaderSys) : LoaderSys → Prop where
  | refl : Reachable init init
  | step {s : LoaderSys} {e : Event} :
      Reachable init s → enabled e s = true → Reachable init (stepEv e s)

/-- The forward order on loader states: `Deferred → Pending → Completed`. -/
def rank : SplitLoaderState → Nat
  | .Deferred _ => 0
  | .Pending => 1
  | .Completed _ => 2

/-- Structural invariant tying the pieces of the state together:
the raw token is outstanding only while `Pending`; the cell memoizes a
value only once the state is `Completed` with that same value; in
`Deferred` nothing has happened yet; the load routine runs at most once. -/
def Inv (s : LoaderSys) : Prop :=
  (s.tokenOut = true → s.state = .Pending) ∧
  (∀ b, s.cache = some b → s.state = .Completed b) ∧
  (∀ l, s.state = .Deferred l →
      s.loadCalls = 0 ∧ s.cache = none ∧ s.tokenOut = false) ∧
  s.loadCalls ≤ 1

theorem pollLazy_cached {s : LoaderSys} {b : Bool} (w : Nat)
    (h : s.cache = some b) : pollLazy w s = (s, .ready b) := by
  simp [pollLazy, h]

theorem pollLazy_deferred {s : LoaderSys} {l : Nat} (w : Nat)
    (hc : s.cache = none) (hs : s.state = .Deferred l) :
    pollLazy w s =
      ({ s with
          state := .Pending
          waker := some w
          loadCalls := s.loadCalls + 1
          tokenOut := true },
       .pending) := by
  simp [pollLazy, hc, hs]

theorem pollLazy_pending {s : LoaderSys} (w : Nat)
    (hc : s.cache = none) (hs : s.state = .Pending) :
    pollLazy w s = ({ s with waker := some w }, .pending) := by
  simp [pollLazy, hc, hs]

theorem pollLazy_completed {s : LoaderSys} {v : Bool} (w : Nat)
    (hc : s.cache = none) (hs : s.state = .Completed v) :
    pollLazy w s = ({ s with cache := some v }, .ready v) := by
  simp [pollLazy, hc, hs]

theorem Inv_new (load : Nat) : Inv (LazySplitLoader.new load) := by
  refine ⟨?_, ?_, ?_, ?_⟩ <;> simp [LazySplitLoader.new, Inv]

theorem Inv_preloaded : Inv LazySplitLoader.preloaded := by
  refine ⟨?_, ?_, ?_, ?_⟩ <;> simp [LazySplitLoader.preloaded, Inv]

theorem Inv_step {s : LoaderSys} {e : Event} (h : Inv s)
    (he : enabled e s = true) : Inv (stepEv e s) := by
  obtain ⟨htok, hcache, hdef, hcnt⟩ := h
  cases e with
  | poll w =>
    show Inv (pollLazy w s).1
    cases hc : s.cache with
    | some b =>
      rw [pollLazy_cached w hc]
      exact ⟨htok, hcache, hdef, hcnt⟩
    | none =>
      cases hs : s.state with
      | Deferred l =>
        obtain ⟨h0, -, -⟩ := hdef l hs
        rw [pollLazy_deferred w hc hs]
        refine ⟨fun _ => rfl, ?_, ?_, ?_⟩
        · intro b hb; simp [hc] at hb
        · intro l' hl'; simp at hl'
        · simp [h0]
      | Pending =>
        rw [pollLazy_pending w hc hs]
        refine ⟨fun _ => hs, ?_, ?_, hcnt⟩
        · intro b hb; simp [hc] at hb
        · intro l' hl'; simp [hs] at hl'
      | Completed v =>
        rw [pollLazy_completed w hc hs]
        refine ⟨?_, ?_, ?_, hcnt⟩
        · intro ht; exact absurd (htok ht) (by simp [hs])
        · intro b hb; simp at hb; simp [hs, ← hb]
        · intro l' hl'; simp [hs] at hl'
  | callback b =>
    have htk : s.tokenOut = true := by simpa [enabled] using he
    have hpend : s.state = .Pending := htok htk
    have hcnone : s.cache = none := by
      cases hcc : s.cache with
      | none => rfl
      | some v =>
        have hv := hcache v hcc
        rw [hpend] at hv
        exact SplitLoaderState.noConfusion hv
    show Inv (load_callback b s)
    refine ⟨?_, ?_, ?_, hcnt⟩
    · intro ht; simp [load_callback] at ht
    · intro c hc
      simp only [load_callback] at hc
      rw [hcnone] at hc
      exact Option.noConfusion hc
    · intro l' hl'; simp [load_callback] at hl'

theorem Inv_reachable {init s : LoaderSys} (h0 : Inv init)
    (h : Reachable init s) : Inv s := by
  induction h with
  | refl => exact h0
  | step _ he ih => exact Inv_step ih he

/-- The states a loader slot can actually be in: reachable from one of the
two constructors, `new` (deferred form) or `preloaded`. -/
def ReachableSys (s : LoaderSys) : Prop :=
  (∃ l, Reachable (LazySplitLoader.new l) s) ∨
    Reachable LazySplitLoader.preloaded s

theorem reachableSys_inv {s : LoaderSys} (h : ReachableSys s) : Inv s := by
  cases h with
  | inl h => obtain ⟨l, h⟩ := h; exact Inv_reachable (Inv_new l) h
  | inr h => exact Inv_reachable Inv_preloaded h

/-- A step never increments the load counter once the state is no longer
`Deferred` (the only branch that invokes the load routine). -/
theorem step_loadCalls_frame {s : LoaderSys} (e : Event)
    (h : ∀ l, s.state ≠ .Deferred l) :
    (stepEv e s).loadCalls = s.loadCalls := by
  cases e with
  | poll w =>
    show (pollLazy w s).1.loadCalls = s.loadCalls
    cases hc : s.cache with
    | some b => rw [pollLazy_cached w hc]
    | none =>
      cases hs : s.state with
      | Deferred l => exact absurd hs (h l)
      | Pending => rw [pollLazy_pending w hc hs]
      | Completed v => rw [pollLazy_completed w hc hs]
  | callback b => rfl

/-- A step never re-enters `Deferred`. -/
theorem step_noDeferred {s : LoaderSys} (e : Event)
    (h : ∀ l, s.state ≠ .Deferred l) :
    ∀ l, (stepEv e s).state ≠ .Deferred l := by
  cases e with
  | poll w =>
    show ∀ l, (pollLazy w s).1.state ≠ .Deferred l
    cases hc : s.cache with
    | some b => rw [pollLazy_cached w hc]; exact h
    | none =>
      cases hs : s.state with
      | Deferred l => exact absurd hs (h l)
      | Pending => rw [pollLazy_pending w hc hs]; simp [hs]
      | Completed v => rw [pollLazy_completed w hc hs]; simp [hs]
  | callback b =>
    intro l
    show (load_callback b s).state ≠ .Deferred l
    simp [load_callback]

/-- A step from an invariant state keeps a `Completed` state exactly as it
is, boolean included. -/
theorem step_completed {s : LoaderSys} {e : Event} {b : Bool} (h : Inv s)
    (he : enabled e s = true) (hs : s.state = .Completed b) :
    (stepEv e s).state = .Completed b := by
  obtain ⟨htok, -, -, -⟩ := h
  cases e with
  | poll w =>
    show (pollLazy w s).1.state = .Completed b
    cases hc : s.cache with
    | some c => rw [pollLazy_cached w hc]; exact hs
    | none => rw [pollLazy_completed w hc hs]; exact hs
  | callback c =>
    have htk : s.tokenOut = true := by simpa [enabled] using he
    have := htok htk
    rw [hs] at this
    exact SplitLoaderState.noConfusion this

/-- Once an invariant state is `Completed b`, every state reachable from it
is still `Completed b`. -/
theorem reachable_completed {s s' : LoaderSys} {b : Bool} (hInv : Inv s)
    (hs : s.state = .Completed b) (h : Reachable s s') :
    s'.state = .Completed b := by
  induction h with
  | refl => exact hs
  | step hr he ih => exact step_completed (Inv_reachable hInv hr) he ih

/-- When the cache cannot show `Some(true)`, `call` fails without invoking
the imported function. -/
theorem callInstr_not_true {Args Ret : Type} (imported : Args → Ret)
    {s : LoaderSys} (h : s.cache ≠ some true) (args : Args) :
    callInstr imported s args = (.error .FailedToLoad, false) := by
  unfold callInstr try_get
  cases hc : s.cache with
  | none => rfl
  | some b =>
    cases b with
    | false => rfl
    | true => exact absurd hc h

/-- C1: for every facade and every argument value, when the memoizing
cell's cached load state is `Completed(true)` (`try_get` yields
`Some(true)`) `call(args)` invokes the bound function pointer on `args`
and returns its result in `Ok`; in every other cached state — absent,
still in progress, or `Completed(false)`, i.e. whenever `try_get` is not
`Some(true)` — it returns `Err(FailedToLoad)` without invoking the
function pointer. -/
theorem call_cases {Args Ret : Type} (imported : Args → Ret)
    (s : LoaderSys) (args : Args) :
    (try_get s = some true →
      callInstr imported s args = (.ok (imported args), true)) ∧
    (try_get s ≠ some true →
      callInstr imported s args = (.error .FailedToLoad, false)) := by
  constructor
  · intro h
    unfold callInstr
    rw [h]
  · intro h
    exact callInstr_not_true imported h args

theorem call_cases_witness :
    callInstr (fun n : Nat => n + 1)
        { LazySplitLoader.new 0 with cache := some true } 3
      = (.ok 4, true) ∧
    callInstr (fun n : Nat => n + 1) (LazySplitLoader.new 0) 3
      = (.error .FailedToLoad, false) :=
  ⟨(call_cases (fun n : Nat => n + 1)
      { LazySplitLoader.new 0 with cache := some true } 3).1 rfl,
   (call_cases (fun n : Nat => n + 1) (LazySplitLoader.new 0) 3).2
      (by simp [LazySplitLoader.new, try_get])⟩

/-- C2: in every reachable state of a loader slot the external load
routine has run at most once; once the state has left `Deferred`, no step
(poll or callback) ever invokes it again; and a poll issued after the
cell has memoized its boolean returns that cached boolean with the state
completely unchanged — in particular without re-invoking the routine.
Polls by arbitrary task identities in arbitrary order cover sequential
and concurrent `load` calls on the single-threaded executor. -/
theorem load_routine_at_most_once {s : LoaderSys} (h : ReachableSys s) :
    s.loadCalls ≤ 1 ∧
    (∀ e : Event, (∀ l, s.state ≠ .Deferred l) →
      (stepEv e s).loadCalls = s.loadCalls) ∧
    (∀ (b : Bool) (w : Nat), s.cache = some b →
      pollLazy w s = (s, .ready b)) := by
  refine ⟨(reachableSys_inv h).2.2.2, ?_, ?_⟩
  · intro e hne
    exact step_loadCalls_frame e hne
  · intro b w hb
    exact pollLazy_cached w hb

theorem load_routine_at_most_once_witness :
    (LazySplitLoader.new 0).loadCalls ≤ 1 :=
  (load_routine_at_most_once (Or.inl ⟨0, Reachable.refl⟩)).1

/-- C3: before any load has resolved — the memoizing cell holds no value,
`try_get` is `None` — `call` returns `Err(FailedToLoad)` and never
invokes the bound function pointer.  `call` is embedded as a pure
function of the state because the source reads the cell through `&self`
(`try_get().copied()`) and mutates nothing: it cannot suspend, block, or
trigger a load. -/
theorem call_before_resolution_fails {Args Ret : Type}
    (imported : Args → Ret) (s : LoaderSys) (args : Args)
    (h : try_get s = none) :
    callInstr imported s args = (.error .FailedToLoad, false) :=
  callInstr_not_true imported (by rw [show s.cache = none from h]; simp)
    args

theorem call_before_resolution_fails_witness :
    callInstr (fun n : Nat => n + 1) (LazySplitLoader.new 0) 3
      = (.error .FailedToLoad, false) :=
  call_before_resolution_fails (fun n : Nat => n + 1)
    (LazySplitLoader.new 0) 3 rfl

/-- C4: under every enabled execution step (a poll or the completion
callback) from a reachable state, the loader state moves strictly forward
along `Deferred → Pending → Completed`: its rank never decreases, and a
`Completed` state survives every step with its boolean unchanged. -/
theorem state_monotone {s : LoaderSys} (e : Event) (h : ReachableSys s)
    (he : enabled e s = true) :
    rank s.state ≤ rank (stepEv e s).state ∧
    (∀ b, s.state = .Completed b → (stepEv e s).state = .Completed b) := by
  have hInv := reachableSys_inv h
  obtain ⟨htok, hcache, -, -⟩ := hInv
  constructor
  · cases e with
    | poll w =>
      show rank s.state ≤ rank (pollLazy w s).1.state
      cases hc : s.cache with
      | some c =>
        have hp : (pollLazy w s).1 = s := by rw [pollLazy_cached w hc]
        rw [hp]
      | none =>
        cases hs : s.state with
        | Deferred l =>
          have hp : (pollLazy w s).1.state = .Pending := by
            rw [pollLazy_deferred w hc hs]
          rw [hp]
          exact Nat.zero_le _
        | Pending =>
          have hp : (pollLazy w s).1.state = s.state := by
            rw [pollLazy_pending w hc hs]
          rw [hp, hs]
        | Completed v =>
          have hp : (pollLazy w s).1.state = s.state := by
            rw [pollLazy_completed w hc hs]
          rw [hp, hs]
    | callback b =>
      have htk : s.tokenOut = true := by simpa [enabled] using he
      have hpend := htok htk
      show rank s.state ≤ rank (load_callback b s).state
      rw [hpend]
      simp [load_callback, rank]
  · intro b hs
    exact step_completed ⟨htok, hcache, (reachableSys_inv h).2.2.1,
      (reachableSys_inv h).2.2.2⟩ he hs

theorem state_monotone_witness :
    rank (stepEv (.poll 0) (LazySplitLoader.new 0)).state ≤
      rank (stepEv (.callback true)
        (stepEv (.poll 0) (LazySplitLoader.new 0))).state :=
  (state_monotone (.callback true)
    (Or.inl ⟨0, Reachable.step Reachable.refl (by decide)⟩) (by decide)).1

/-- C5: a failed load is terminal: from any reachable state whose loader
state is `Completed(false)`, every state reachable by further steps still
has loader state `Completed(false)`, and `call` there always returns
`Err(FailedToLoad)` for every facade and every argument — there is no
retry path and the outcome never becomes success. -/
theorem failure_terminal {s s' : LoaderSys} (h : ReachableSys s)
    (hs : s.state = .Completed false) (h' : Reachable s s') :
    s'.state = .Completed false ∧
    ∀ {Args Ret : Type} (imported : Args → Ret) (args : Args),
      call imported s' args = .error .FailedToLoad := by
  have hInv := reachableSys_inv h
  have hstate : s'.state = .Completed false :=
    reachable_completed hInv hs h'
  refine ⟨hstate, ?_⟩
  intro Args Ret imported args
  have hInv' : Inv s' := Inv_reachable hInv h'
  have hct : s'.cache ≠ some true := by
    intro hsome
    have := hInv'.2.1 true hsome
    rw [hstate] at this
    simp at this
  unfold call
  rw [callInstr_not_true imported hct args]

theorem failure_terminal_witness :
    (stepEv (.callback false)
        (stepEv (.poll 0) (LazySplitLoader.new 0))).state
      = .Completed false ∧
    call (fun n : Nat => n + 1)
        (stepEv (.callback false)
          (stepEv (.poll 0) (LazySplitLoader.new 0))) 5
      = .error .FailedToLoad :=
  have h := failure_terminal
    (Or.inl ⟨0, Reachable.step (Reachable.step Reachable.refl (by decide))
      (by decide)⟩)
    (by decide) Reachable.refl
  ⟨h.1, h.2 (fun n : Nat => n + 1) 5⟩

/-- C6: the first poll of a loader in state `Deferred(load)` sets the
state to `Pending`, stores the polling task's waker in the waker slot,
invokes the external load routine (the counter goes from 0 — proved here
— to 1, i.e. exactly once) handing it the callback entry point together
with the raw strong-reference token (`tokenOut` becomes `true`), and
returns `Pending`; nothing else changes. -/
theorem first_poll_spec {s : LoaderSys} {l : Nat} (w : Nat)
    (h : ReachableSys s) (hs : s.state = .Deferred l) :
    pollLazy w s =
      ({ s with
          state := .Pending
          waker := some w
          loadCalls := s.loadCalls + 1
          tokenOut := true },
       .pending) ∧
    s.loadCalls = 0 := by
  obtain ⟨h0, hc, -⟩ := (reachableSys_inv h).2.2.1 l hs
  exact ⟨pollLazy_deferred w hc hs, h0⟩

theorem first_poll_spec_witness :
    pollLazy 5 (LazySplitLoader.new 0) =
      ({ LazySplitLoader.new 0 with
          state := .Pending
          waker := some 5
          loadCalls := (LazySplitLoader.new 0).loadCalls + 1
          tokenOut := true },
       .pending) ∧
    (LazySplitLoader.new 0).loadCalls = 0 :=
  first_poll_spec 5 (Or.inl ⟨0, Reachable.refl⟩) rfl

/-- C7: the completion callback invoked with the token and a success flag
reconstructs the owned strong reference from the token (consuming it:
`tokenOut` is `false` afterwards), sets the loader state to
`Completed(success)`, and takes the waker out of its slot, waking it when
one was stored and waking nothing otherwise. -/
theorem load_callback_spec (success : Bool) (s : LoaderSys) :
    (load_callback success s).state = .Completed success ∧
    (load_callback success s).tokenOut = false ∧
    (load_callback success s).waker = none ∧
    (∀ w, s.waker = some w →
      (load_callback success s).woken = s.woken ++ [w]) ∧
    (s.waker = none → (load_callback success s).woken = s.woken) := by
  refine ⟨rfl, rfl, rfl, ?_, ?_⟩
  · intro w hw
    simp [load_callback, hw]
  · intro hw
    simp [load_callback, hw]

theorem load_callback_spec_witness :
    (load_callback true
        (stepEv (.poll 4) (LazySplitLoader.new 0))).state
      = .Completed true ∧
    (load_callback true
        (stepEv (.poll 4) (LazySplitLoader.new 0))).woken
      = (stepEv (.poll 4) (LazySplitLoader.new 0)).woken ++ [4] :=
  have h := load_callback_spec true
    (stepEv (.poll 4) (LazySplitLoader.new 0))
  ⟨h.1, h.2.2.2.1 4 rfl⟩

/-- C8: a facade built with the preloaded constructor resolves `load` to
`true` on its very first poll, the external load routine is never invoked
in any reachable state of such a slot (`loadCalls` stays 0 forever), and
once that poll has run, `call(args)` succeeds with `Ok(f(args))` where
`f` is the already-resident function. -/
theorem preloaded_spec {Args Ret : Type} (imported : Args → Ret)
    (w : Nat) (args : Args) :
    (pollLazy w LazySplitLoader.preloaded).2 = .ready true ∧
    (∀ s, Reachable LazySplitLoader.preloaded s → s.loadCalls = 0) ∧
    callInstr imported (pollLazy w LazySplitLoader.preloaded).1 args
      = (.ok (imported args), true) := by
  refine ⟨rfl, ?_, rfl⟩
  intro s h
  have key : ∀ t, Reachable LazySplitLoader.preloaded t →
      t.loadCalls = 0 ∧ ∀ l, t.state ≠ .Deferred l := by
    intro t ht
    induction ht with
    | refl => exact ⟨rfl, by simp [LazySplitLoader.preloaded]⟩
    | step hr he ih =>
      exact ⟨by rw [step_loadCalls_frame _ ih.2]; exact ih.1,
        step_noDeferred _ ih.2⟩
  exact (key s h).1

theorem preloaded_spec_witness :
    (pollLazy 0 LazySplitLoader.preloaded).2 = .ready true ∧
    LazySplitLoader.preloaded.loadCalls = 0 ∧
    callInstr (fun n : Nat => n * 2)
        (pollLazy 0 LazySplitLoader.preloaded).1 3
      = (.ok 6, true) :=
  have h := preloaded_spec (fun n : Nat => n * 2) 0 3
  ⟨h.1, h.2.1 LazySplitLoader.preloaded Reachable.refl, h.2.2⟩

/-- C9: a poll of a loader in state `Pending` (reachable, so the cell has
not memoized a value yet) overwrites the waker slot with the polling
task's waker and returns `Pending`; the record-update form of the
conclusion states that the state field and every other component are left
unchanged. -/
theorem pending_poll_frame {s : LoaderSys} (w : Nat) (h : ReachableSys s)
    (hs : s.state = .Pending) :
    pollLazy w s = ({ s with waker := some w }, .pending) := by
  have hInv := reachableSys_inv h
  have hc : s.cache = none := by
    cases hcc : s.cache with
    | none => rfl
    | some v =>
      have hv := hInv.2.1 v hcc
      rw [hs] at hv
      exact SplitLoaderState.noConfusion hv
  exact pollLazy_pending w hc hs

theorem pending_poll_frame_witness :
    pollLazy 1 (stepEv (.poll 0) (LazySplitLoader.new 0)) =
      ({ stepEv (.poll 0) (LazySplitLoader.new 0) with waker := some 1 },
       .pending) :=
  pending_poll_frame 1 (Or.inl ⟨0, Reachable.step Reachable.refl (by decide)⟩)
    (by decide)

/-- The state of a deferred slot after its first poll by task 1: the load
routine has been invoked and the token handed out. -/
def afterFirstPoll : LoaderSys := (pollLazy 1 (LazySplitLoader.new 0)).1

/-- The state after the external callback then reports success: the raw
loader state is `Completed(true)`, but nobody has awaited the cell since,
so the cell has not memoized the value yet. -/
def afterCallback : LoaderSys := load_callback true afterFirstPoll

/-- C10: `call` consults only the memoizing cell (`try_get`), not the raw
loader state.  Concretely: after the first poll and a successful
callback, the loader state is `Completed(true)` yet `try_get` is still
`None`, so `call` returns `Err(FailedToLoad)` without invoking the
function pointer; only after a further poll (an await of `load` running
to completion) does the cell memoize `true`, and then `call` succeeds.
`call` is a pure function of the state in this embedding because the
source reads the cell through `&self` — it never populates or mutates
the cache. -/
theorem call_consults_cache_only :
    afterCallback.state = .Completed true ∧
    try_get afterCallback = none ∧
    callInstr (fun n : Nat => n + 1) afterCallback 5
      = (.error .FailedToLoad, false) ∧
    (pollLazy 2 afterCallback).2 = .ready true ∧
    try_get (pollLazy 2 afterCallback).1 = some true ∧
    call (fun n : Nat => n + 1) (pollLazy 2 afterCallback).1 5 = .ok 6 :=
  ⟨rfl, rfl, rfl, rfl, rfl, rfl⟩

end WasmSplit
